import Mathlib

/-!
Verification of the forkra variable-font backend against its specification.

The Python sources are shallowly embedded: Python dicts become association
lists (`List (κ × α)`) with first-match lookup and insertion order preserved
(Python dicts are insertion ordered and have unique keys); numeric axis values
are modelled as `Int` (the algorithms only ever compare them for equality or
set membership, never do arithmetic on them); filesystem facts
(`os.path.exists`, `os.stat(...).st_mtime`) become explicit parameters.
-/

namespace Forkra

/-- Lookup in an association list: the value of the first entry whose key
matches, mirroring Python `dict.__getitem__` / `dict.get`. -/
def alookup {κ α : Type} [DecidableEq κ] : List (κ × α) → κ → Option α
  | [], _ => none
  | (k, v) :: rest, key => if k = key then some v else alookup rest key

theorem alookup_eq_none_of_not_mem_keys {κ α : Type} [DecidableEq κ]
    (l : List (κ × α)) (k : κ) (h : k ∉ l.map Prod.fst) : alookup l k = none := by
  induction l with
  | nil => rfl
  | cons e rest ih =>
    obtain ⟨k', v'⟩ := e
    simp only [List.map_cons, List.mem_cons] at h
    push_neg at h
    have hne : ¬(k' = k) := fun hh => h.1 hh.symm
    simp only [alookup, if_neg hne]
    exact ih h.2

theorem alookup_cons_ne {κ α : Type} [DecidableEq κ]
    (k' : κ) (v' : α) (l : List (κ × α)) (k : κ) (h : ¬(k' = k)) :
    alookup ((k', v') :: l) k = alookup l k := by
  simp [alookup, h]

/-- Location values: axis name to axis value.  Axis values are opaque
comparable quantities here (`Int`). -/
abbrev Location := List (String × Int)

/-- Translation of `makeSparseLocation` (src/fontra/core/varutils.py lines
45-50): keep, for each axis of the default location, the location's value
when it is present and differs from the default value. -/
def makeSparseLocation (location defaultLocation : Location) : Location :=
  defaultLocation.filterMap fun e =>
    if (alookup location e.1).getD e.2 ≠ e.2 then
      some (e.1, (alookup location e.1).getD e.2)
    else none

/-- Translation of `makeDenseLocation` (src/fontra/core/varutils.py lines
53-54): for each axis of the default location, take the location's value,
falling back to the default value. -/
def makeDenseLocation (location defaultLocation : Location) : Location :=
  defaultLocation.map fun e => (e.1, (alookup location e.1).getD e.2)

theorem makeSparseLocation_keys_subset (loc dflt : Location) :
    (makeSparseLocation loc dflt).map Prod.fst ⊆ dflt.map Prod.fst := by
  induction dflt with
  | nil => simp [makeSparseLocation]
  | cons e rest ih =>
    obtain ⟨n, v⟩ := e
    simp only [makeSparseLocation, List.filterMap_cons] at ih ⊢
    by_cases hc : (alookup loc n).getD v ≠ v
    · simp only [if_pos hc, List.map_cons]
      intro x hx
      rcases List.mem_cons.mp hx with h1 | h2
      · exact List.mem_cons.mpr (Or.inl h1)
      · exact List.mem_cons_of_mem _ (ih h2)
    · simp only [if_neg hc]
      exact fun x hx => List.mem_cons_of_mem _ (ih hx)

theorem makeDenseLocation_cons_irrelevant (k : String) (x : Int)
    (X dflt : Location) (h : k ∉ dflt.map Prod.fst) :
    makeDenseLocation ((k, x) :: X) dflt = makeDenseLocation X dflt := by
  induction dflt with
  | nil => rfl
  | cons e rest ih =>
    obtain ⟨n, v⟩ := e
    simp only [List.map_cons, List.mem_cons] at h
    push_neg at h
    simp only [makeDenseLocation, List.map_cons] at ih ⊢
    rw [alookup_cons_ne k x X n h.1]
    exact congrArg (List.cons _) (ih h.2)

/-- C4: converting a location to sparse and then to dense (against the same
default location) agrees with converting it to dense directly, provided the
default location has no duplicate axis names (a Python dict guarantee). -/
theorem sparse_dense_roundtrip (loc dflt : Location)
    (hnd : (dflt.map Prod.fst).Nodup) :
    makeDenseLocation (makeSparseLocation loc dflt) dflt =
      makeDenseLocation loc dflt := by
  induction dflt with
  | nil => rfl
  | cons e rest ih =>
    obtain ⟨n, v⟩ := e
    simp only [List.map_cons, List.nodup_cons] at hnd
    obtain ⟨hn, hrest⟩ := hnd
    have hspk : alookup (makeSparseLocation loc rest) n = none :=
      alookup_eq_none_of_not_mem_keys _ _
        (fun hmem => hn (makeSparseLocation_keys_subset loc rest hmem))
    have hD : ∀ X : Location,
        makeDenseLocation X ((n, v) :: rest) =
          (n, (alookup X n).getD v) :: makeDenseLocation X rest := fun X => rfl
    by_cases hc : (alookup loc n).getD v ≠ v
    · have hS : makeSparseLocation loc ((n, v) :: rest) =
          (n, (alookup loc n).getD v) :: makeSparseLocation loc rest := by
        simp only [makeSparseLocation, List.filterMap_cons, if_pos hc]
      rw [hS, hD, hD loc]
      refine congrArg₂ List.cons ?_ ?_
      · simp [alookup]
      · rw [makeDenseLocation_cons_irrelevant n _ _ rest hn, ih hrest]
    · have hS : makeSparseLocation loc ((n, v) :: rest) =
          makeSparseLocation loc rest := by
        simp only [makeSparseLocation, List.filterMap_cons, if_neg hc]
      rw [hS, hD, hD loc]
      push_neg at hc
      refine congrArg₂ List.cons ?_ ?_
      · rw [hspk]
        simp [hc]
      · exact ih hrest

/-- Witness for C4 at a concrete input. -/
theorem sparse_dense_roundtrip_witness :
    makeDenseLocation
        (makeSparseLocation [("wght", 700), ("slnt", 0)]
          [("wght", 400), ("wdth", 100), ("slnt", 0)])
        [("wght", 400), ("wdth", 100), ("slnt", 0)] =
      makeDenseLocation [("wght", 700), ("slnt", 0)]
        [("wght", 400), ("wdth", 100), ("slnt", 0)] :=
  sparse_dense_roundtrip _ _ (by decide)

/-! ### Kerning group merge (designspace.py `mergeKernGroups`, lines 2372-2392) -/

theorem alookup_eq_none_iff {κ α : Type} [DecidableEq κ]
    (l : List (κ × α)) (k : κ) : alookup l k = none ↔ k ∉ l.map Prod.fst := by
  induction l with
  | nil => simp [alookup]
  | cons e rest ih =>
    obtain ⟨k', v'⟩ := e
    by_cases h : k' = k
    · subst h
      simp [alookup]
    · rw [alookup_cons_ne _ _ _ _ h]
      simp only [List.map_cons, List.mem_cons, ih]
      constructor
      · intro hnone hmem
        rcases hmem with h1 | h2
        · exact h h1.symm
        · exact hnone h2
      · intro hni
        exact fun hmem => hni (Or.inr hmem)

/-- Merged member list for one group name, mirroring the per-group-name body
of the loop in `mergeKernGroups`: keep the side that has the group; when both
have it and the lists differ, concatenate A's list with the members of B's
list not already present in A. -/
def mergeValue (groupsA groupsB : List (String × List String))
    (groupName : String) : Option (List String) :=
  match alookup groupsA groupName, alookup groupsB groupName with
  | none, none => none
  | none, some gB => some gB
  | some gA, none => some gA
  | some gA, some gB =>
    if gA = gB then some gA
    else some (gA ++ gB.filter (fun n => n ∉ gA))

/-- Translation of `mergeKernGroups` (designspace.py lines 2372-2392): iterate
over the sorted union of the group names of both inputs and emit the merged
member list for each name.  (The `none, none` case of `mergeValue` is
unreachable for names drawn from the union; the Python code asserts this.) -/
def mergeKernGroups (groupsA groupsB : List (String × List String)) :
    List (String × List String) :=
  let unionKeys :=
    List.insertionSort (fun a b : String => a ≤ b)
      ((groupsA.map Prod.fst ++ groupsB.map Prod.fst).dedup)
  unionKeys.filterMap fun groupName =>
    (mergeValue groupsA groupsB groupName).map fun v => (groupName, v)

theorem alookup_filterMap_keyed {κ α : Type} [DecidableEq κ]
    (keys : List κ) (f : κ → Option α) (k : κ) :
    alookup (keys.filterMap (fun g => (f g).map (fun v => (g, v)))) k =
      if k ∈ keys then f k else none := by
  induction keys with
  | nil => simp [alookup]
  | cons g rest ih =>
    simp only [List.filterMap_cons]
    by_cases hk : k = g
    · subst hk
      cases hf : f k with
      | none =>
        simp only [hf, Option.map_none']
        rw [ih, if_pos (List.mem_cons_self k rest), hf]
        simp
      | some v =>
        simp only [hf, Option.map_some']
        simp [alookup, hf]
    · cases hf : f g with
      | none =>
        simp only [hf, Option.map_none']
        rw [ih]
        simp [List.mem_cons, hk]
      | some v =>
        simp only [hf, Option.map_some']
        rw [alookup_cons_ne _ _ _ _ (fun hh => hk hh.symm), ih]
        simp [List.mem_cons, hk]

theorem mem_keys_of_alookup_eq_some {κ α : Type} [DecidableEq κ]
    {l : List (κ × α)} {k : κ} {v : α} (h : alookup l k = some v) :
    k ∈ l.map Prod.fst := by
  by_contra hmem
  rw [alookup_eq_none_of_not_mem_keys l k hmem] at h
  exact Option.noConfusion h

theorem alookup_mergeKernGroups (groupsA groupsB : List (String × List String))
    (g : String) :
    alookup (mergeKernGroups groupsA groupsB) g =
      if g ∈ groupsA.map Prod.fst ∨ g ∈ groupsB.map Prod.fst then
        mergeValue groupsA groupsB g
      else none := by
  unfold mergeKernGroups
  rw [alookup_filterMap_keyed]
  have hmem : g ∈ List.insertionSort (fun a b : String => a ≤ b)
      ((groupsA.map Prod.fst ++ groupsB.map Prod.fst).dedup) ↔
      g ∈ groupsA.map Prod.fst ∨ g ∈ groupsB.map Prod.fst := by
    rw [(List.perm_insertionSort _ _).mem_iff, List.mem_dedup, List.mem_append]
  by_cases h : g ∈ groupsA.map Prod.fst ∨ g ∈ groupsB.map Prod.fst
  · rw [if_pos (hmem.mpr h), if_pos h]
  · rw [if_neg (fun hh => h (hmem.mp hh)), if_neg h]

/-- C6: `mergeKernGroups A B` has as key set the union of the two key sets; a
group present in only one input keeps that input's member list; a group in
both with identical lists keeps that list; a group in both with differing
lists maps to A's list followed by the members of B's list not already in A,
in B's order. -/
theorem mergeKernGroups_spec (groupsA groupsB : List (String × List String))
    (g : String) (la lb : List String) :
    (g ∈ (mergeKernGroups groupsA groupsB).map Prod.fst ↔
      g ∈ groupsA.map Prod.fst ∨ g ∈ groupsB.map Prod.fst) ∧
    (alookup groupsA g = some la → alookup groupsB g = none →
      alookup (mergeKernGroups groupsA groupsB) g = some la) ∧
    (alookup groupsA g = none → alookup groupsB g = some lb →
      alookup (mergeKernGroups groupsA groupsB) g = some lb) ∧
    (alookup groupsA g = some la → alookup groupsB g = some lb → la = lb →
      alookup (mergeKernGroups groupsA groupsB) g = some la) ∧
    (alookup groupsA g = some la → alookup groupsB g = some lb → la ≠ lb →
      alookup (mergeKernGroups groupsA groupsB) g =
        some (la ++ lb.filter (fun n => n ∉ la))) := by
  have hmemIff : ∀ (l : List (String × List String)) (k : String),
      k ∈ l.map Prod.fst ↔ ¬(alookup l k = none) := fun l k => by
    rw [alookup_eq_none_iff]
    exact not_not.symm
  refine ⟨?_, ?_, ?_, ?_, ?_⟩
  · rw [hmemIff, alookup_mergeKernGroups]
    by_cases h : g ∈ groupsA.map Prod.fst ∨ g ∈ groupsB.map Prod.fst
    · rw [if_pos h]
      refine ⟨fun _ => h, fun _ => ?_⟩
      unfold mergeValue
      cases hA : alookup groupsA g with
      | some la' =>
        cases hB : alookup groupsB g with
        | some lb' =>
          by_cases hab : la' = lb' <;> simp [hab]
        | none => simp
      | none =>
        cases hB : alookup groupsB g with
        | some lb' => simp
        | none =>
          rcases h with h1 | h2
          · exact absurd h1 ((alookup_eq_none_iff _ _).mp hA)
          · exact absurd h2 ((alookup_eq_none_iff _ _).mp hB)
    · rw [if_neg h]
      exact iff_of_false (fun hc => hc rfl) h
  · intro ha hb
    rw [alookup_mergeKernGroups,
      if_pos (Or.inl (mem_keys_of_alookup_eq_some ha))]
    unfold mergeValue
    rw [ha, hb]
  · intro ha hb
    rw [alookup_mergeKernGroups,
      if_pos (Or.inr (mem_keys_of_alookup_eq_some hb))]
    unfold mergeValue
    rw [ha, hb]
  · intro ha hb heq
    rw [alookup_mergeKernGroups,
      if_pos (Or.inl (mem_keys_of_alookup_eq_some ha))]
    unfold mergeValue
    rw [ha, hb]
    simp [heq]
  · intro ha hb hne
    rw [alookup_mergeKernGroups,
      if_pos (Or.inl (mem_keys_of_alookup_eq_some ha))]
    unfold mergeValue
    rw [ha, hb]
    simp [hne]

/-- Witness for C6 at concrete inputs, including the spec's own example
(`"@O1"` merged from `["A","B"]` and `["A","B","C"]` yields `["A","B","C"]`). -/
theorem mergeKernGroups_spec_witness :
    alookup (mergeKernGroups
        [("@O1", ["A", "B"]), ("@L", ["X"]), ("@S", ["Q"])]
        [("@O1", ["A", "B", "C"]), ("@R", ["Y"]), ("@S", ["Q"])]) "@L" =
      some ["X"] ∧
    alookup (mergeKernGroups
        [("@O1", ["A", "B"]), ("@L", ["X"]), ("@S", ["Q"])]
        [("@O1", ["A", "B", "C"]), ("@R", ["Y"]), ("@S", ["Q"])]) "@R" =
      some ["Y"] ∧
    alookup (mergeKernGroups
        [("@O1", ["A", "B"]), ("@L", ["X"]), ("@S", ["Q"])]
        [("@O1", ["A", "B", "C"]), ("@R", ["Y"]), ("@S", ["Q"])]) "@S" =
      some ["Q"] ∧
    alookup (mergeKernGroups
        [("@O1", ["A", "B"]), ("@L", ["X"]), ("@S", ["Q"])]
        [("@O1", ["A", "B", "C"]), ("@R", ["Y"]), ("@S", ["Q"])]) "@O1" =
      some ["A", "B", "C"] := by
  refine ⟨?_, ?_, ?_, ?_⟩
  · exact (mergeKernGroups_spec _ _ "@L" ["X"] []).2.1 (by decide) (by decide)
  · exact (mergeKernGroups_spec _ _ "@R" [] ["Y"]).2.2.1 (by decide) (by decide)
  · exact (mergeKernGroups_spec _ _ "@S" ["Q"] ["Q"]).2.2.2.1 (by decide)
      (by decide) rfl
  · exact ((mergeKernGroups_spec _ _ "@O1" ["A", "B"] ["A", "B", "C"]).2.2.2.2
      (by decide) (by decide) (by decide)).trans (by decide)

/-! ### Indexed registry collection (designspace.py `ItemList`, lines 1825-1863)

Items are of an abstract type `α`; Python's `getattr(item, attrName)` becomes
an explicit function `getattr : α → String → V` into an abstract field-value
type `V`. -/

theorem alookup_append {κ α : Type} [DecidableEq κ]
    (m₁ m₂ : List (κ × α)) (k : κ) :
    alookup (m₁ ++ m₂) k =
      match alookup m₁ k with
      | some v => some v
      | none => alookup m₂ k := by
  induction m₁ with
  | nil => simp [alookup]
  | cons e rest ih =>
    obtain ⟨k', v'⟩ := e
    by_cases h : k' = k
    · subst h
      simp [alookup]
    · simp only [List.cons_append, alookup_cons_ne _ _ _ _ h, ih]

theorem mem_of_alookup_eq_some {κ α : Type} [DecidableEq κ]
    {l : List (κ × α)} {k : κ} {v : α} (h : alookup l k = some v) :
    (k, v) ∈ l := by
  induction l with
  | nil => exact Option.noConfusion h
  | cons e rest ih =>
    obtain ⟨k', v'⟩ := e
    by_cases hk : k' = k
    · subst hk
      have h' : some v' = some v := by simpa [alookup] using h
      obtain rfl : v' = v := Option.some.inj h'
      exact List.mem_cons_self _ _
    · rw [alookup_cons_ne _ _ _ _ hk] at h
      exact List.mem_cons_of_mem _ (ih h)

/-- Per-item value tuple for a tuple of field names, mirroring
`tuple(getattr(item, attrName) for attrName in attrTuple)` in `findItems`. -/
def attrValues {α V : Type} (getattr : α → String → V) (attrs : List String)
    (item : α) : List V :=
  attrs.map (getattr item)

/-- One step of the `defaultdict(list)` loop of `findItems`: append `item` to
the bucket of its value tuple, creating the bucket at the end if new. -/
def addIndexEntry {α V : Type} [DecidableEq V]
    (m : List (List V × List α)) (vt : List V) (item : α) :
    List (List V × List α) :=
  match alookup m vt with
  | some _ => m.map fun e => if e.1 = vt then (e.1, e.2 ++ [item]) else e
  | none => m ++ [(vt, [item])]

/-- The index that `findItems` builds for a field-name tuple: value tuple to
the matching items in insertion order. -/
def buildIndex {α V : Type} [DecidableEq V] (getattr : α → String → V)
    (items : List α) (attrs : List String) : List (List V × List α) :=
  items.foldl (fun m item => addIndexEntry m (attrValues getattr attrs item) item) []

/-- State of an `ItemList`: the items plus the cache of lazily built indices
(`self._mappings`), keyed by field-name tuple. -/
structure ItemListState (α V : Type) where
  items : List α
  mappings : List (List String × List (List V × List α))

/-- The state `ItemList.__init__` produces: no items, empty cache. -/
def emptyItemList {α V : Type} : ItemListState α V := ⟨[], []⟩

/-- Translation of `ItemList.append`: add the item and invalidate every
cached index (`invalidateCache` resets `self._mappings` to empty). -/
def itemListAppend {α V : Type} (s : ItemListState α V) (x : α) :
    ItemListState α V :=
  ⟨s.items ++ [x], []⟩

/-- Translation of `ItemList.findItems` (designspace.py lines 1847-1859):
reuse the cached index for this field-name tuple when present, else build it
and cache it; return the bucket of the value tuple.  The returned pair is
(result, state after the call). -/
def findItems {α V : Type} [DecidableEq V] (getattr : α → String → V)
    (s : ItemListState α V) (constraints : List (String × V)) :
    Option (List α) × ItemListState α V :=
  let attrTuple := constraints.map Prod.fst
  let valueTuple := constraints.map Prod.snd
  match alookup s.mappings attrTuple with
  | some keyMapping => (alookup keyMapping valueTuple, s)
  | none =>
    let keyMapping := buildIndex getattr s.items attrTuple
    (alookup keyMapping valueTuple,
      ⟨s.items, s.mappings ++ [(attrTuple, keyMapping)]⟩)

/-- Translation of `ItemList.findItem`: first element of the `findItems`
result, absent when there is none (`items[0] if items else None`). -/
def findItem {α V : Type} [DecidableEq V] (getattr : α → String → V)
    (s : ItemListState α V) (constraints : List (String × V)) :
    Option α × ItemListState α V :=
  let r := findItems getattr s constraints
  (match r.1 with
   | some l => l.head?
   | none => none, r.2)

/-- An interleaving of `append` and query operations on one `ItemList`. -/
inductive ItemOp (α V : Type) : Type
  | append (x : α)
  | query (constraints : List (String × V))

/-- Run a sequence of operations from a given state (queries are run for
their cache side effect). -/
def runOps {α V : Type} [DecidableEq V] (getattr : α → String → V) :
    ItemListState α V → List (ItemOp α V) → ItemListState α V
  | s, [] => s
  | s, (.append x) :: rest => runOps getattr (itemListAppend s x) rest
  | s, (.query cs) :: rest => runOps getattr (findItems getattr s cs).2 rest

/-- Every cached index agrees with the index rebuilt from the current items. -/
def cacheConsistent {α V : Type} [DecidableEq V] (getattr : α → String → V)
    (s : ItemListState α V) : Prop :=
  ∀ ats km, (ats, km) ∈ s.mappings → km = buildIndex getattr s.items ats

theorem alookup_map_update {α V : Type} [DecidableEq V]
    (m : List (List V × List α)) (vt : List V) (item : α)
    (k : List V) :
    alookup (m.map fun e => if e.1 = vt then (e.1, e.2 ++ [item]) else e) k =
      if k = vt then (alookup m k).map (fun l => l ++ [item])
      else alookup m k := by
  induction m with
  | nil => simp [alookup]
  | cons e rest ih =>
    obtain ⟨k', v'⟩ := e
    simp only [List.map_cons]
    by_cases h1 : k' = vt
    · subst h1
      rw [if_pos rfl]
      by_cases h2 : k' = k
      · subst h2
        simp [alookup]
      · rw [alookup_cons_ne _ _ _ _ h2, alookup_cons_ne _ _ _ _ h2, ih]
    · rw [if_neg (by simpa using h1)]
      by_cases h2 : k' = k
      · subst h2
        have hkv : ¬(k' = vt) := h1
        simp [alookup, hkv]
      · rw [alookup_cons_ne _ _ _ _ h2, alookup_cons_ne _ _ _ _ h2, ih]

theorem alookup_addIndexEntry {α V : Type} [DecidableEq V]
    (m : List (List V × List α)) (vt' : List V) (item : α) (vt : List V) :
    alookup (addIndexEntry m vt' item) vt =
      if vt = vt' then some ((alookup m vt).getD [] ++ [item])
      else alookup m vt := by
  unfold addIndexEntry
  cases hm : alookup m vt' with
  | some l =>
    dsimp only
    rw [alookup_map_update]
    by_cases h : vt = vt'
    · subst h
      rw [if_pos rfl, if_pos rfl, hm]
      rfl
    · rw [if_neg h, if_neg h]
  | none =>
    dsimp only
    rw [alookup_append]
    by_cases h : vt = vt'
    · subst h
      rw [hm, if_pos rfl]
      simp [alookup]
    · rw [if_neg h]
      cases hv : alookup m vt with
      | some l => rfl
      | none =>
        rw [alookup_cons_ne _ _ _ _ (fun hh => h hh.symm)]
        rfl

theorem alookup_buildIndex_go {α V : Type} [DecidableEq V]
    (getattr : α → String → V) (attrs : List String) :
    ∀ (items : List α) (acc : List (List V × List α)) (vt : List V),
    alookup (items.foldl
        (fun m item => addIndexEntry m (attrValues getattr attrs item) item)
        acc) vt =
      (match alookup acc vt with
       | some l =>
          some (l ++ items.filter fun it =>
            decide (attrValues getattr attrs it = vt))
       | none =>
          let matched := items.filter fun it =>
            decide (attrValues getattr attrs it = vt)
          if matched.isEmpty then none else some matched) := by
  intro items
  induction items with
  | nil =>
    intro acc vt
    cases h : alookup acc vt <;> simp [h]
  | cons it rest ih =>
    intro acc vt
    simp only [List.foldl_cons]
    rw [ih]
    rw [alookup_addIndexEntry]
    by_cases hvt : attrValues getattr attrs it = vt
    · rw [if_pos hvt.symm]
      cases ha : alookup acc vt with
      | some l =>
        simp [ha, List.filter_cons, hvt, List.append_assoc]
      | none =>
        simp [ha, List.filter_cons, hvt, alookup]
    · rw [if_neg (fun hh => hvt hh.symm)]
      cases ha : alookup acc vt with
      | some l =>
        simp [ha, List.filter_cons, hvt]
      | none =>
        simp [ha, List.filter_cons, hvt]

theorem alookup_buildIndex {α V : Type} [DecidableEq V]
    (getattr : α → String → V) (attrs : List String) (items : List α)
    (vt : List V) :
    alookup (buildIndex getattr items attrs) vt =
      (let matched := items.filter fun it =>
        decide (attrValues getattr attrs it = vt)
       if matched.isEmpty then none else some matched) := by
  unfold buildIndex
  rw [alookup_buildIndex_go]
  rfl

theorem runOps_cacheConsistent {α V : Type} [DecidableEq V]
    (getattr : α → String → V) :
    ∀ (ops : List (ItemOp α V)) (s : ItemListState α V),
    cacheConsistent getattr s → cacheConsistent getattr (runOps getattr s ops) := by
  intro ops
  induction ops with
  | nil => exact fun s h => h
  | cons op rest ih =>
    intro s hs
    cases op with
    | append x =>
      apply ih
      intro ats km hmem
      exact absurd hmem (List.not_mem_nil _)
    | query cs =>
      apply ih
      intro ats km hmem
      unfold findItems at hmem ⊢
      dsimp only at hmem ⊢
      cases hc : alookup s.mappings (cs.map Prod.fst) with
      | some keyMapping =>
        rw [hc] at hmem
        dsimp only at hmem ⊢
        exact hs ats km hmem
      | none =>
        rw [hc] at hmem
        dsimp only at hmem ⊢
        simp only [List.mem_append, List.mem_singleton] at hmem
        rcases hmem with h1 | h2
        · exact hs ats km h1
        · injection h2 with h3 h4
          subst h3
          subst h4
          rfl

theorem head?_filter_eq_find? {α : Type} (p : α → Bool) (l : List α) :
    (l.filter p).head? = l.find? p := by
  induction l with
  | nil => rfl
  | cons x rest ih =>
    by_cases h : p x
    · simp [List.filter_cons, List.find?_cons, h]
    · simp only [List.filter_cons, List.find?_cons]
      rw [Bool.of_not_eq_true h]
      simp [ih]

/-- C7: after any interleaving of appends and queries starting from a fresh
`ItemList`, `findItem` with any field-equality constraints returns the first
item in insertion order whose named fields equal the given values, and none
when no item matches; a stale cached index is never consulted because
`append` invalidates the whole cache. -/
theorem itemList_findItem_correct {α V : Type} [DecidableEq V]
    (getattr : α → String → V) (ops : List (ItemOp α V))
    (constraints : List (String × V)) :
    (findItem getattr (runOps getattr emptyItemList ops) constraints).1 =
      (runOps getattr emptyItemList ops).items.find? fun it =>
        constraints.all fun c => decide (getattr it c.1 = c.2) := by
  have hcons : cacheConsistent getattr (runOps getattr emptyItemList ops) :=
    runOps_cacheConsistent getattr ops emptyItemList
      (fun ats km hmem => absurd hmem (List.not_mem_nil _))
  set s := runOps getattr emptyItemList ops with hs
  have hpred : ∀ it : α,
      decide (attrValues getattr (constraints.map Prod.fst) it =
        constraints.map Prod.snd) =
      constraints.all fun c => decide (getattr it c.1 = c.2) := by
    intro it
    induction constraints with
    | nil => rfl
    | cons c cs ihc =>
      obtain ⟨a, v⟩ := c
      simp only [attrValues, List.map_cons, List.all_cons]
      simp only [attrValues] at ihc
      rw [← ihc]
      by_cases h1 : getattr it a = v
      · by_cases h2 : (cs.map Prod.fst).map (getattr it) = cs.map Prod.snd
        · simp [h1, h2]
        · simp [h1, h2]
      · simp [h1]
  have hkey : alookup (buildIndex getattr s.items (constraints.map Prod.fst))
      (constraints.map Prod.snd) =
      (let matched := s.items.filter fun it =>
        constraints.all fun c => decide (getattr it c.1 = c.2)
       if matched.isEmpty then none else some matched) := by
    rw [alookup_buildIndex]
    simp only [List.filter_congr (fun it _ => hpred it)]
  unfold findItem findItems
  dsimp only
  cases hc : alookup s.mappings (constraints.map Prod.fst) with
  | some keyMapping =>
    have hkm := hcons _ _ (mem_of_alookup_eq_some hc)
    subst hkm
    dsimp only
    rw [hkey, ← head?_filter_eq_find?]
    cases hmz : (s.items.filter fun it =>
        constraints.all fun c => decide (getattr it c.1 = c.2)).isEmpty
    · simp [hmz]
    · simp only [hmz]
      rw [List.isEmpty_iff] at hmz
      simp [hmz]
  | none =>
    dsimp only
    rw [hkey, ← head?_filter_eq_find?]
    cases hmz : (s.items.filter fun it =>
        constraints.all fun c => decide (getattr it c.1 = c.2)).isEmpty
    · simp [hmz]
    · simp only [hmz]
      rw [List.isEmpty_iff] at hmz
      simp [hmz]

/-! ### File watcher event cleanup (filewatcher.py `cleanupWatchFilesChanges`,
lines 86-102) -/

/-- The three `watchfiles.Change` kinds. -/
inductive Change : Type
  | added
  | modified
  | deleted
deriving DecidableEq

/-- Numeric values of the `watchfiles.Change` enum (`added = 1`,
`modified = 2`, `deleted = 3`); Python compares enum members by value. -/
def changeRank : Change → Nat
  | .added => 1
  | .modified => 2
  | .deleted => 3

/-- Python tuple comparison on `(Change, path)` pairs, as used by
`sorted(changes)`. -/
def changePathLe (a b : Change × String) : Prop :=
  changeRank a.1 < changeRank b.1 ∨
    (changeRank a.1 = changeRank b.1 ∧ a.2 ≤ b.2)

instance : DecidableRel changePathLe := fun a b => by
  unfold changePathLe
  exact inferInstance

instance : IsTotal (Change × String) changePathLe := ⟨by
  intro a b
  rcases Nat.lt_trichotomy (changeRank a.1) (changeRank b.1) with h | h | h
  · exact Or.inl (Or.inl h)
  · rcases le_total a.2 b.2 with h2 | h2
    · exact Or.inl (Or.inr ⟨h, h2⟩)
    · exact Or.inr (Or.inr ⟨h.symm, h2⟩)
  · exact Or.inr (Or.inl h)⟩

instance : IsTrans (Change × String) changePathLe := ⟨by
  intro a b c hab hbc
  rcases hab with h1 | ⟨h1, h1'⟩ <;> rcases hbc with h2 | ⟨h2, h2'⟩
  · exact Or.inl (by omega)
  · exact Or.inl (by omega)
  · exact Or.inl (by omega)
  · exact Or.inr ⟨by omega, le_trans h1' h2'⟩⟩

/-- One iteration of the `for change, path in sorted(changes)` loop of
`cleanupWatchFilesChanges`: a new path records its (first, hence
lowest-sorted) event; an already-seen path is only overridden when the event
is a deletion and the path no longer exists on disk. -/
def watchStep (pathExists : String → Bool) (perPath : List (String × Change))
    (cp : Change × String) : List (String × Change) :=
  match alookup perPath cp.2 with
  | some _ =>
    if cp.1 = Change.deleted ∧ pathExists cp.2 = false then
      perPath.map fun e => if e.1 = cp.2 then (e.1, Change.deleted) else e
    else perPath
  | none => perPath ++ [(cp.2, cp.1)]

/-- Translation of `cleanupWatchFilesChanges` (filewatcher.py lines 86-102):
fold the loop body over the sorted events; the resulting per-path dict is the
returned set of `(change, path)` pairs.  `os.path.exists` is the parameter
`pathExists`. -/
def cleanupWatchFilesChanges (pathExists : String → Bool)
    (changes : List (Change × String)) : List (String × Change) :=
  (List.insertionSort changePathLe changes).foldl (watchStep pathExists) []

/-- The lowest-sorted change kind present in a list (order: added, modified,
deleted); used only to state the specification. -/
def minChangeKind (ks : List Change) : Option Change :=
  if Change.added ∈ ks then some Change.added
  else if Change.modified ∈ ks then some Change.modified
  else if Change.deleted ∈ ks then some Change.deleted
  else none

theorem alookup_map_setval {κ α : Type} [DecidableEq κ]
    (m : List (κ × α)) (q : κ) (x : α) (p : κ) :
    alookup (m.map fun e => if e.1 = q then (e.1, x) else e) p =
      if p = q then (alookup m p).map (fun _ => x) else alookup m p := by
  induction m with
  | nil => simp [alookup]
  | cons e rest ih =>
    obtain ⟨k', v'⟩ := e
    simp only [List.map_cons]
    by_cases h1 : k' = q
    · subst h1
      rw [if_pos rfl]
      by_cases h2 : k' = p
      · subst h2
        simp [alookup]
      · rw [alookup_cons_ne _ _ _ _ h2, alookup_cons_ne _ _ _ _ h2, ih]
    · rw [if_neg (by simpa using h1)]
      by_cases h2 : k' = p
      · subst h2
        have hkv : ¬(k' = q) := h1
        simp [alookup, hkv]
      · rw [alookup_cons_ne _ _ _ _ h2, alookup_cons_ne _ _ _ _ h2, ih]

theorem watchStep_alookup (pathExists : String → Bool)
    (acc : List (String × Change)) (c : Change) (q p : String) :
    alookup (watchStep pathExists acc (c, q)) p =
      if q = p then
        (match alookup acc p with
         | some v =>
            some (if c = Change.deleted ∧ pathExists q = false then
              Change.deleted else v)
         | none => some c)
      else alookup acc p := by
  unfold watchStep
  dsimp only
  by_cases hqp : q = p
  · subst hqp
    rw [if_pos rfl]
    cases ha : alookup acc q with
    | some v =>
      dsimp only
      by_cases hd : c = Change.deleted ∧ pathExists q = false
      · rw [if_pos hd, if_pos hd, alookup_map_setval, if_pos rfl, ha]
        rfl
      · rw [if_neg hd, if_neg hd, ha]
    | none =>
      dsimp only
      rw [alookup_append, ha]
      simp [alookup]
  · rw [if_neg hqp]
    cases ha : alookup acc q with
    | some v =>
      dsimp only
      by_cases hd : c = Change.deleted ∧ pathExists q = false
      · rw [if_pos hd, alookup_map_setval, if_neg (fun hh => hqp hh.symm)]
      · rw [if_neg hd]
    | none =>
      dsimp only
      rw [alookup_append]
      cases hp : alookup acc p with
      | some w => rfl
      | none =>
        rw [alookup_cons_ne _ _ _ _ hqp]
        rfl

theorem watch_foldl_present (pathExists : String → Bool) :
    ∀ (L : List (Change × String)) (acc : List (String × Change))
      (p : String) (v : Change), alookup acc p = some v →
    alookup (L.foldl (watchStep pathExists) acc) p =
      some (if Change.deleted ∈
          ((L.filter fun cp => decide (cp.2 = p)).map Prod.fst) ∧
          pathExists p = false
        then Change.deleted else v) := by
  intro L
  induction L with
  | nil =>
    intro acc p v h
    simp [h]
  | cons cp rest ih =>
    intro acc p v h
    obtain ⟨c, q⟩ := cp
    simp only [List.foldl_cons]
    by_cases hqp : q = p
    · subst hqp
      have hstep : alookup (watchStep pathExists acc (c, q)) q =
          some (if c = Change.deleted ∧ pathExists q = false then
            Change.deleted else v) := by
        rw [watchStep_alookup, if_pos rfl, h]
      rw [ih _ _ _ hstep]
      by_cases hd : c = Change.deleted ∧ pathExists q = false
      · simp only [if_pos hd, List.filter_cons, decide_eq_true rfl]
        simp [hd.1, hd.2, List.mem_cons]
      · simp only [if_neg hd, List.filter_cons, decide_eq_true rfl]
        congr 1
        by_cases hex : pathExists q = false
        · have hc : ¬(Change.deleted = c) := fun hh => hd ⟨hh.symm, hex⟩
          simp [hex, List.mem_cons, hc]
        · simp [hex]
    · have hstep : alookup (watchStep pathExists acc (c, q)) p = some v := by
        rw [watchStep_alookup, if_neg hqp]
        exact h
      rw [ih _ _ _ hstep]
      simp [List.filter_cons, hqp]

theorem watch_foldl_absent (pathExists : String → Bool) :
    ∀ (L : List (Change × String)) (acc : List (String × Change))
      (p : String), alookup acc p = none →
    alookup (L.foldl (watchStep pathExists) acc) p =
      (let ks := (L.filter fun cp => decide (cp.2 = p)).map Prod.fst
       if ks.isEmpty then none
       else if Change.deleted ∈ ks ∧ pathExists p = false then
         some Change.deleted
       else ks.head?) := by
  intro L
  induction L with
  | nil =>
    intro acc p h
    simpa using h
  | cons cp rest ih =>
    intro acc p h
    obtain ⟨c, q⟩ := cp
    simp only [List.foldl_cons]
    by_cases hqp : q = p
    · subst hqp
      have hstep : alookup (watchStep pathExists acc (c, q)) q = some c := by
        rw [watchStep_alookup, if_pos rfl, h]
      rw [watch_foldl_present pathExists _ _ _ _ hstep]
      simp only [List.filter_cons, decide_eq_true rfl, List.map_cons,
        List.isEmpty_cons, List.head?_cons]
      by_cases hex : pathExists q = false
      · by_cases hdr : Change.deleted ∈
            ((rest.filter fun cp => decide (cp.2 = q)).map Prod.fst)
        · simp [hdr, hex, List.mem_cons]
        · by_cases hc : c = Change.deleted
          · subst hc
            simp [hdr, hex, List.mem_cons]
          · have hc' : ¬(Change.deleted = c) := fun hh => hc hh.symm
            simp [hdr, hex, List.mem_cons, hc']
      · simp [hex]
    · have hstep : alookup (watchStep pathExists acc (c, q)) p = none := by
        rw [watchStep_alookup, if_neg hqp]
        exact h
      rw [ih _ _ hstep]
      have hfc : List.filter (fun cp => decide (cp.2 = p)) ((c, q) :: rest) =
          List.filter (fun cp => decide (cp.2 = p)) rest := by
        rw [List.filter_cons]
        simp [hqp]
      dsimp only
      rw [hfc]

theorem minChangeKind_eq_of_min (ks : List Change) (m : Change)
    (hm : m ∈ ks) (hle : ∀ k ∈ ks, changeRank m ≤ changeRank k) :
    minChangeKind ks = some m := by
  cases m with
  | added => simp [minChangeKind, hm]
  | modified =>
    have hna : Change.added ∉ ks := fun ha => by
      have := hle _ ha
      simp [changeRank] at this
    simp [minChangeKind, hna, hm]
  | deleted =>
    have hna : Change.added ∉ ks := fun ha => by
      have := hle _ ha
      simp [changeRank] at this
    have hnm : Change.modified ∉ ks := fun ha => by
      have := hle _ ha
      simp [changeRank] at this
    simp [minChangeKind, hna, hnm, hm]

theorem minChangeKind_perm {ks ks' : List Change} (h : ks.Perm ks') :
    minChangeKind ks = minChangeKind ks' := by
  unfold minChangeKind
  by_cases h1 : Change.added ∈ ks
  · rw [if_pos h1, if_pos (h.mem_iff.mp h1)]
  · rw [if_neg h1, if_neg (fun hh => h1 (h.mem_iff.mpr hh))]
    by_cases h2 : Change.modified ∈ ks
    · rw [if_pos h2, if_pos (h.mem_iff.mp h2)]
    · rw [if_neg h2, if_neg (fun hh => h2 (h.mem_iff.mpr hh))]
      by_cases h3 : Change.deleted ∈ ks
      · rw [if_pos h3, if_pos (h.mem_iff.mp h3)]
      · rw [if_neg h3, if_neg (fun hh => h3 (h.mem_iff.mpr hh))]

theorem head?_eq_minChangeKind (ks : List Change)
    (h : ks.Pairwise fun a b => changeRank a ≤ changeRank b) :
    ks.head? = minChangeKind ks := by
  cases ks with
  | nil => simp [minChangeKind]
  | cons hd tl =>
    rw [List.pairwise_cons] at h
    rw [List.head?_cons]
    refine (minChangeKind_eq_of_min _ hd (List.mem_cons_self _ _) ?_).symm
    intro k hk
    rcases List.mem_cons.mp hk with h1 | h2
    · subst h1
      exact le_refl _
    · exact h.1 _ h2

theorem watchStep_keys (pathExists : String → Bool)
    (acc : List (String × Change)) (c : Change) (q : String) :
    (watchStep pathExists acc (c, q)).map Prod.fst = acc.map Prod.fst ∨
      (alookup acc q = none ∧
        (watchStep pathExists acc (c, q)).map Prod.fst =
          acc.map Prod.fst ++ [q]) := by
  unfold watchStep
  dsimp only
  cases ha : alookup acc q with
  | some v =>
    dsimp only
    by_cases hd : c = Change.deleted ∧ pathExists q = false
    · rw [if_pos hd]
      left
      rw [List.map_map]
      apply List.map_congr_left
      intro e _
      by_cases he : e.1 = q <;> simp [he]
    · rw [if_neg hd]
      left
      rfl
  | none =>
    dsimp only
    right
    exact ⟨rfl, by simp⟩

theorem watch_foldl_keys_nodup (pathExists : String → Bool) :
    ∀ (L : List (Change × String)) (acc : List (String × Change)),
    (acc.map Prod.fst).Nodup →
    ((L.foldl (watchStep pathExists) acc).map Prod.fst).Nodup := by
  intro L
  induction L with
  | nil => exact fun acc h => h
  | cons cp rest ih =>
    intro acc hnd
    obtain ⟨c, q⟩ := cp
    simp only [List.foldl_cons]
    apply ih
    rcases watchStep_keys pathExists acc c q with h1 | ⟨h2, h3⟩
    · rw [h1]
      exact hnd
    · rw [h3]
      rw [List.nodup_append]
      refine ⟨hnd, List.nodup_singleton _, ?_⟩
      intro a ha hb
      rw [List.mem_singleton] at hb
      subst hb
      exact absurd ha ((alookup_eq_none_iff _ _).mp h2)

/-- C10: `cleanupWatchFilesChanges` mentions each path at most once; a path's
reported kind is `deleted` when a deleted event for it is present and the
path no longer exists on disk, and otherwise the lowest-sorted kind among
that path's events (order: added, modified, deleted). -/
theorem cleanupWatchFilesChanges_spec (pathExists : String → Bool)
    (changes : List (Change × String)) (p : String) :
    (alookup (cleanupWatchFilesChanges pathExists changes) p =
      (let ks := (changes.filter fun cp => decide (cp.2 = p)).map Prod.fst
       if ks.isEmpty then none
       else if Change.deleted ∈ ks ∧ pathExists p = false then
         some Change.deleted
       else minChangeKind ks)) ∧
    ((cleanupWatchFilesChanges pathExists changes).map Prod.fst).Nodup := by
  constructor
  · unfold cleanupWatchFilesChanges
    rw [watch_foldl_absent pathExists
      (List.insertionSort changePathLe changes) [] p rfl]
    have hperm : (List.insertionSort changePathLe changes).Perm changes :=
      List.perm_insertionSort _ _
    have hks : (((List.insertionSort changePathLe changes).filter
          fun cp => decide (cp.2 = p)).map Prod.fst).Perm
        ((changes.filter fun cp => decide (cp.2 = p)).map Prod.fst) :=
      (hperm.filter _).map _
    have hsorted : ((List.insertionSort changePathLe changes).filter
          fun cp => decide (cp.2 = p)).Pairwise changePathLe :=
      (List.sorted_insertionSort changePathLe changes).filter _
    have hkssorted : (((List.insertionSort changePathLe changes).filter
          fun cp => decide (cp.2 = p)).map Prod.fst).Pairwise
        fun a b => changeRank a ≤ changeRank b := by
      refine List.Pairwise.map Prod.fst ?_ hsorted
      intro a b hab
      rcases hab with h1 | ⟨h2, _⟩
      · exact Nat.le_of_lt h1
      · exact Nat.le_of_eq h2
    dsimp only
    by_cases hemp : ((changes.filter fun cp => decide (cp.2 = p)).map
        Prod.fst).isEmpty = true
    · have h0 : (changes.filter fun cp => decide (cp.2 = p)).map Prod.fst
          = [] := List.isEmpty_iff.mp hemp
      have h1 : ((List.insertionSort changePathLe changes).filter
          fun cp => decide (cp.2 = p)).map Prod.fst = [] :=
        List.Perm.eq_nil (h0 ▸ hks)
      rw [h0, h1]
      rfl
    · have h0 : ¬(((List.insertionSort changePathLe changes).filter
          fun cp => decide (cp.2 = p)).map Prod.fst).isEmpty = true := by
        intro hcon
        rw [List.isEmpty_iff] at hcon
        rw [List.isEmpty_iff] at hemp
        exact hemp (List.Perm.eq_nil (hcon ▸ hks.symm))
      rw [if_neg h0, if_neg hemp]
      by_cases hdel : Change.deleted ∈
          ((changes.filter fun cp => decide (cp.2 = p)).map Prod.fst) ∧
          pathExists p = false
      · rw [if_pos (⟨hks.mem_iff.mpr hdel.1, hdel.2⟩ :
            Change.deleted ∈ (((List.insertionSort changePathLe
              changes).filter fun cp => decide (cp.2 = p)).map Prod.fst) ∧
            pathExists p = false), if_pos hdel]
      · rw [if_neg (fun hh => hdel ⟨hks.mem_iff.mp hh.1, hh.2⟩),
          if_neg hdel]
        rw [head?_eq_minChangeKind _ hkssorted]
        exact minChangeKind_perm hks
  · exact watch_foldl_keys_nodup pathExists _ [] (by simp)

/-! ### Change reconciler, modification events
(designspace.py `_analyzeExternalGlyphChanges`, lines 1477-1520)

Timestamps are opaque comparable values (`Int`); a file's modification time
is `none` when the file does not exist.  The ledger
`savedGlyphModificationTimes` maps a glyph name to either the
deleted-everywhere marker (`none`, set by `deleteGlyph`) or the set of
timestamps recorded by the last `putGlyph` (which may itself contain `none`
markers for layers the glyph was deleted from). -/

/-- Ledger type: glyph name to `None` or a set of optional timestamps. -/
abbrev ModTimeLedger := List (String × Option (List (Option Int)))

/-- Translation of the `Change.modified` path of
`_analyzeExternalGlyphChanges`: resolve the file name to a glyph name (give
up when unknown), compute the file's current modification time (`none` when
the file is gone), and report the glyph changed when the ledger entry is not
the deleted marker and the time is not among the recorded ones.  Returns the
reported glyph names together with the ledger after the call. -/
def analyzeModifiedGlyphChange (glifFileNames : List (String × String))
    (savedGlyphModificationTimes : ModTimeLedger)
    (fileName : String) (fileExists : Bool) (fileMTime : Int) :
    List String × ModTimeLedger :=
  match alookup glifFileNames fileName with
  | none => ([], savedGlyphModificationTimes)
  | some glyphName =>
    let mtime : Option Int := if fileExists then some fileMTime else none
    match alookup savedGlyphModificationTimes glyphName with
    | some none => ([], savedGlyphModificationTimes)
    | some (some savedMTimes) =>
      if mtime ∉ savedMTimes then ([glyphName], savedGlyphModificationTimes)
      else ([], savedGlyphModificationTimes)
    | none => ([glyphName], savedGlyphModificationTimes)

/-- Counterexample to C1: a modification event whose timestamp matches a
recorded one is dropped (no glyph reported changed), but the matched
timestamp is NOT removed from the ledger: the ledger is returned unchanged,
and replaying the very same event against the resulting ledger matches (is
dropped) a second time. -/
theorem analyzeModified_ledger_not_pruned :
    analyzeModifiedGlyphChange [("a.glif", "a")] [("a", some [some 5])]
        "a.glif" true 5 = ([], [("a", some [some 5])]) ∧
    analyzeModifiedGlyphChange [("a.glif", "a")]
        (analyzeModifiedGlyphChange [("a.glif", "a")] [("a", some [some 5])]
          "a.glif" true 5).2 "a.glif" true 5 =
      ([], [("a", some [some 5])]) := by
  constructor <;> rfl

/-- C1 (amended): a modification event reports glyph `g` changed exactly when
the file name resolves to `g` and the ledger entry for `g` is not the
deleted-everywhere marker and the file's current modification time is not
among the recorded timestamps; the event is otherwise dropped silently, and
in every case the ledger is left unchanged (no timestamp is removed). -/
theorem analyzeModifiedGlyphChange_spec (glifFileNames : List (String × String))
    (ledger : ModTimeLedger) (fileName : String) (fileExists : Bool)
    (fileMTime : Int) (g : String) :
    (g ∈ (analyzeModifiedGlyphChange glifFileNames ledger fileName
        fileExists fileMTime).1 ↔
      (alookup glifFileNames fileName = some g ∧
        match alookup ledger g with
        | some none => False
        | some (some savedMTimes) =>
            (if fileExists then some fileMTime else none) ∉ savedMTimes
        | none => True)) ∧
    (analyzeModifiedGlyphChange glifFileNames ledger fileName
        fileExists fileMTime).2 = ledger := by
  unfold analyzeModifiedGlyphChange
  cases hf : alookup glifFileNames fileName with
  | none =>
    refine ⟨?_, rfl⟩
    simp
  | some glyphName =>
    dsimp only
    cases hl : alookup ledger glyphName with
    | none =>
      dsimp only
      refine ⟨?_, rfl⟩
      constructor
      · intro hmem
        rw [List.mem_singleton] at hmem
        subst hmem
        rw [hl]
        exact ⟨rfl, trivial⟩
      · intro ⟨h1, _⟩
        obtain rfl : glyphName = g := Option.some.inj h1
        exact List.mem_singleton.mpr rfl
    | some entry =>
      cases entry with
      | none =>
        dsimp only
        refine ⟨?_, rfl⟩
        constructor
        · intro hmem
          exact absurd hmem (List.not_mem_nil _)
        · intro ⟨h1, h2⟩
          obtain rfl : glyphName = g := Option.some.inj h1
          rw [hl] at h2
          exact absurd h2 (by simp)
      | some savedMTimes =>
        dsimp only
        by_cases hm : (if fileExists then some fileMTime else none) ∉ savedMTimes
        · rw [if_pos hm]
          refine ⟨?_, rfl⟩
          constructor
          · intro hmem
            rw [List.mem_singleton] at hmem
            subst hmem
            rw [hl]
            exact ⟨rfl, hm⟩
          · intro ⟨h1, _⟩
            obtain rfl : glyphName = g := Option.some.inj h1
            exact List.mem_singleton.mpr rfl
        · rw [if_neg hm]
          refine ⟨?_, rfl⟩
          constructor
          · intro hmem
            exact absurd hmem (List.not_mem_nil _)
          · intro ⟨h1, h2⟩
            obtain rfl : glyphName = g := Option.some.inj h1
            rw [hl] at h2
            exact absurd h2 hm

/-! ### Glyph deletion (designspace.py `deleteGlyph`, lines 992-1005)

A backing layer is modelled by the parts of `UFOLayer` that `deleteGlyph`
touches: its glyph set (a name-keyed store, so deletion removes the name as
a key), its default-layer flag, and the owning reader's `public.glyphOrder`
list (held here per layer; each package has exactly one default layer, and
`deleteGlyph` touches a package's order only through its default layer).
The dependency-graph update on the last line of `deleteGlyph` is outside
this model. -/

structure UFOLayerM : Type where
  path : String
  name : String
  fontraLayerName : String
  isDefaultLayer : Bool
  glyphs : List String
  glyphOrder : List String
deriving DecidableEq

/-- Backend state touched by `deleteGlyph`: the in-memory glyph map, the
backing layers, and the modification-time ledger. -/
structure FontBackendState : Type where
  glyphMap : List (String × List Nat)
  ufoLayers : List UFOLayerM
  savedGlyphModificationTimes : ModTimeLedger
deriving DecidableEq

/-- Python `d[k] = v` on a dict: overwrite in place when the key exists,
else append the new entry. -/
def aset {κ α : Type} [DecidableEq κ] (m : List (κ × α)) (k : κ) (v : α) :
    List (κ × α) :=
  if (alookup m k).isSome then
    m.map fun e => if e.1 = k then (e.1, v) else e
  else m ++ [(k, v)]

/-- Translation of `deleteGlyph` (designspace.py lines 992-1005): error when
the glyph is not in the glyph map; otherwise delete the glyph from every
backing layer that has it (removing it from the glyph-order list of default
layers), drop it from the glyph map, and set its ledger entry to the
deleted-everywhere marker. -/
def deleteGlyph (s : FontBackendState) (glyphName : String) :
    Except String FontBackendState :=
  if (alookup s.glyphMap glyphName).isNone then
    Except.error ("Glyph '" ++ glyphName ++ "' does not exist")
  else
    Except.ok
      { glyphMap := s.glyphMap.filter fun e => decide (e.1 ≠ glyphName)
        ufoLayers := s.ufoLayers.map fun L =>
          if glyphName ∈ L.glyphs then
            { L with
              glyphs := L.glyphs.filter fun n => decide (n ≠ glyphName)
              glyphOrder :=
                if L.isDefaultLayer then L.glyphOrder.erase glyphName
                else L.glyphOrder }
          else L
        savedGlyphModificationTimes :=
          aset s.savedGlyphModificationTimes glyphName none }

/-- Guard of `getGlyph` (designspace.py lines 463-465): `getGlyph` returns
`None` exactly when the glyph is not in `self.glyphMap`; only this guard is
modelled. -/
def getGlyphReturnsAbsent (s : FontBackendState) (glyphName : String) : Bool :=
  (alookup s.glyphMap glyphName).isNone

theorem alookup_filter_ne_self {α : Type} (m : List (String × α)) (g : String) :
    alookup (m.filter fun e => decide (e.1 ≠ g)) g = none := by
  rw [alookup_eq_none_iff]
  intro hmem
  rw [List.mem_map] at hmem
  obtain ⟨e, he, hfst⟩ := hmem
  rw [List.mem_filter] at he
  have := he.2
  simp [hfst] at this

theorem alookup_aset_self {κ α : Type} [DecidableEq κ]
    (m : List (κ × α)) (k : κ) (v : α) : alookup (aset m k v) k = some v := by
  unfold aset
  cases hm : alookup m k with
  | some w =>
    rw [if_pos (by rfl)]
    rw [alookup_map_setval, if_pos rfl, hm]
    rfl
  | none =>
    rw [if_neg (by simp)]
    rw [alookup_append, hm]
    simp [alookup]

/-- C5: `deleteGlyph` raises when the glyph is unknown; otherwise it removes
the glyph from every backing layer that contains it, drops it from the
in-memory glyph map, records the deleted-everywhere marker in the ledger,
and a subsequent `getGlyph` reports the glyph absent. -/
theorem deleteGlyph_spec (s : FontBackendState) (g : String) :
    (alookup s.glyphMap g = none →
      deleteGlyph s g = Except.error ("Glyph '" ++ g ++ "' does not exist")) ∧
    (alookup s.glyphMap g ≠ none →
      match deleteGlyph s g with
      | Except.error _ => False
      | Except.ok s' =>
          (∀ L ∈ s'.ufoLayers, g ∉ L.glyphs) ∧
          alookup s'.glyphMap g = none ∧
          alookup s'.savedGlyphModificationTimes g = some none ∧
          getGlyphReturnsAbsent s' g = true) := by
  constructor
  · intro h
    unfold deleteGlyph
    rw [if_pos (by rw [h]; rfl)]
  · intro h
    unfold deleteGlyph
    rw [if_neg (by cases hm : alookup s.glyphMap g with
      | none => exact absurd hm h
      | some v => simp)]
    dsimp only
    refine ⟨?_, ?_, ?_, ?_⟩
    · intro L hL
      rw [List.mem_map] at hL
      obtain ⟨L0, _, hL0⟩ := hL
      subst hL0
      by_cases hg : g ∈ L0.glyphs
      · rw [if_pos hg]
        intro hmem
        dsimp only at hmem
        rw [List.mem_filter] at hmem
        simp at hmem
      · rw [if_neg hg]
        exact hg
    · exact alookup_filter_ne_self _ _
    · exact alookup_aset_self _ _ _
    · unfold getGlyphReturnsAbsent
      rw [alookup_filter_ne_self]
      rfl

/-- Witness for C5 at a concrete state: a glyph present in two layers. -/
theorem deleteGlyph_spec_witness :
    (alookup (FontBackendState.mk [("A", [65])]
        [UFOLayerM.mk "f.ufo" "public.default" "s0" true ["A", "B"] ["A", "B"],
         UFOLayerM.mk "f.ufo" "alt" "s1" false ["A"] []]
        [("A", some [some 3])]).glyphMap "A" ≠ none) ∧
    (match deleteGlyph (FontBackendState.mk [("A", [65])]
        [UFOLayerM.mk "f.ufo" "public.default" "s0" true ["A", "B"] ["A", "B"],
         UFOLayerM.mk "f.ufo" "alt" "s1" false ["A"] []]
        [("A", some [some 3])]) "A" with
      | Except.error _ => False
      | Except.ok s' =>
          (∀ L ∈ s'.ufoLayers, "A" ∉ L.glyphs) ∧
          alookup s'.glyphMap "A" = none ∧
          alookup s'.savedGlyphModificationTimes "A" = some none ∧
          getGlyphReturnsAbsent s' "A" = true) :=
  ⟨by decide,
   (deleteGlyph_spec (FontBackendState.mk [("A", [65])]
        [UFOLayerM.mk "f.ufo" "public.default" "s0" true ["A", "B"] ["A", "B"],
         UFOLayerM.mk "f.ufo" "alt" "s1" false ["A"] []]
        [("A", some [some 3])]) "A").2 (by decide)⟩

/-! ### GlyphSource `locationBase` resolution
(designspace.py `_prepareUFOSourceLayer`, lines 796-823)

A `DSSource` carries the fields this analysis needs.  The registry lookup
`self.dsSources.findItem(identifier=...)` returns the first source with that
identifier in insertion order (proved for `ItemList` in
`itemList_findItem_correct`), so the registry is embedded as a plain list
with `List.find?`. -/

structure DSSourceM : Type where
  identifier : String
  name : String
  location : Location
  isDefault : Bool
deriving DecidableEq

/-- Translation of the `baseLocation` resolution at the top of
`_prepareUFOSourceLayer` (lines 803-815): an empty/None `locationBase` is
falsy and skipped; a known identifier supplies its source's location; the
first unknown identifier is tolerated and remembered in
`self._implicitDefaultLocationBase`; a later, different unknown identifier
raises.  Returns the base location and the new remembered identifier. -/
def resolveBaseLocation (dsSources : List DSSourceM)
    (implicitDefaultLocationBase : Option String)
    (locationBase : Option String) :
    Except String (Location × Option String) :=
  match locationBase with
  | none => Except.ok ([], implicitDefaultLocationBase)
  | some lb =>
    if lb = "" then Except.ok ([], implicitDefaultLocationBase)
    else
      match dsSources.find? (fun s => decide (s.identifier = lb)) with
      | some dsSource => Except.ok (dsSource.location, implicitDefaultLocationBase)
      | none =>
        match implicitDefaultLocationBase with
        | none => Except.ok ([], some lb)
        | some t =>
          if t ≠ lb then
            Except.error ("Unknown font source identifier: " ++ lb)
          else Except.ok ([], implicitDefaultLocationBase)

/-- C3: the first GlyphSource whose `locationBase` matches no known
LogicalSource is tolerated (base location empty) and remembered; a later
GlyphSource with a different unknown identifier raises; further occurrences
of the remembered identifier remain tolerated. -/
theorem locationBase_tolerance (dsSources : List DSSourceM) (lb t : String) :
    (lb ≠ "" → dsSources.find? (fun s => decide (s.identifier = lb)) = none →
      resolveBaseLocation dsSources none (some lb) =
        Except.ok ([], some lb)) ∧
    (lb ≠ "" → dsSources.find? (fun s => decide (s.identifier = lb)) = none →
      t ≠ lb →
      resolveBaseLocation dsSources (some t) (some lb) =
        Except.error ("Unknown font source identifier: " ++ lb)) ∧
    (lb ≠ "" → dsSources.find? (fun s => decide (s.identifier = lb)) = none →
      resolveBaseLocation dsSources (some lb) (some lb) =
        Except.ok ([], some lb)) := by
  refine ⟨?_, ?_, ?_⟩
  · intro hne hfind
    unfold resolveBaseLocation
    dsimp only
    rw [if_neg hne, hfind]
  · intro hne hfind hdiff
    unfold resolveBaseLocation
    dsimp only
    rw [if_neg hne, hfind]
    dsimp only
    rw [if_pos hdiff]
  · intro hne hfind
    unfold resolveBaseLocation
    dsimp only
    rw [if_neg hne, hfind]
    dsimp only
    rw [if_neg (by simp)]

/-- Witness for C3 at concrete inputs: one known source `s0`; `missing` is
tolerated once and remembered, `other` then raises, `missing` again is
tolerated. -/
theorem locationBase_tolerance_witness :
    resolveBaseLocation [DSSourceM.mk "s0" "Regular" [] true] none
        (some "missing") = Except.ok ([], some "missing") ∧
    resolveBaseLocation [DSSourceM.mk "s0" "Regular" [] true]
        (some "missing") (some "other") =
      Except.error ("Unknown font source identifier: " ++ "other") ∧
    resolveBaseLocation [DSSourceM.mk "s0" "Regular" [] true]
        (some "missing") (some "missing") =
      Except.ok ([], some "missing") :=
  ⟨(locationBase_tolerance [DSSourceM.mk "s0" "Regular" [] true] "missing"
      "x").1 (by decide) (by decide),
   (locationBase_tolerance [DSSourceM.mk "s0" "Regular" [] true] "other"
      "missing").2.1 (by decide) (by decide) (by decide),
   (locationBase_tolerance [DSSourceM.mk "s0" "Regular" [] true] "missing"
      "x").2.2 (by decide) (by decide)⟩

/-! ### Classification of new source locations
(designspace.py `_createDSSourceForGlyph` lines 879-905,
`_findDSSourceForSparseSource` lines 907-917,
`splitLocationByPolePosition` lines 2132-2140) -/

/-- Strict lexicographic order on character lists, mirroring Python's
code-point string comparison. -/
def charListLt : List Char → List Char → Bool
  | [], [] => false
  | [], _ :: _ => true
  | _ :: _, [] => false
  | c :: cs, d :: ds => if c < d then true else if d < c then false else charListLt cs ds

/-- Python tuple comparison on `(axisName, value)` pairs, used by
`sorted(loc.items())` in `locationToTuple`: by axis name first, then by
value. -/
def locPairLe (a b : String × Int) : Bool :=
  if a.1 = b.1 then decide (a.2 ≤ b.2) else charListLt a.1.data b.1.data

/-- Translation of `locationToTuple` (src/fontra/core/varutils.py lines
36-37): the location's entries sorted.  Only used as an equality key, as in
the source. -/
def locationToTuple (loc : Location) : Location :=
  List.insertionSort (fun a b => locPairLe a b = true) loc

/-- Translation of `splitLocationByPolePosition` (designspace.py lines
2132-2140): partition a location's entries by whether the value is among the
axis's poles (axes absent from `poles` count as not at a pole). -/
def splitLocationByPolePosition (location : Location)
    (poles : List (String × List Int)) : Location × Location :=
  (location.filter fun e => decide (e.2 ∈ (alookup poles e.1).getD []),
   location.filter fun e => decide (e.2 ∉ (alookup poles e.1).getD []))

/-- Python `{**a, **b}`: `a`'s keys in order with `b`'s values overriding,
then `b`'s keys not in `a`, in `b`'s order. -/
def dictMerge (a b : Location) : Location :=
  (a.map fun e => (e.1, (alookup b e.1).getD e.2)) ++
    b.filter fun e => decide (alookup a e.1 = none)

/-- Translation of `_findDSSourceForSparseSource` (lines 907-917): look up
the source sitting at the location's pole-projection (the at-pole entries
over the default location), falling back to the default source.  `none`
models the failing `assert poleDSSource is not None`. -/
def findDSSourceForSparseSource (defaultLocation : Location)
    (poles : List (String × List Int)) (dsSources : List DSSourceM)
    (location : Location) : Option DSSourceM :=
  let atPole := (splitLocationByPolePosition location poles).1
  let atPole2 := dictMerge defaultLocation atPole
  match dsSources.find?
      (fun s => decide (locationToTuple s.location = locationToTuple atPole2)) with
  | some s => some s
  | none => dsSources.find? (fun s => s.isDefault)

/-- The effect of `_createDSSourceForGlyph` that C2 is about: whether the
new LogicalSource attaches a layer to an existing source's package (sparse)
or gets a brand-new backing package. -/
inductive CreateDSAction : Type
  | attachLayer (poleSource : Option DSSourceM)
  | newPackage
deriving DecidableEq

/-- Translation of the branch decision of `_createDSSourceForGlyph` (lines
888-898): when some entry of the location is not at a pole, attach a new
layer to the pole-projection source; otherwise create a new package. -/
def createDSSourceForGlyphAction (defaultLocation : Location)
    (poles : List (String × List Int)) (dsSources : List DSSourceM)
    (location : Location) : CreateDSAction :=
  let notAtPole := (splitLocationByPolePosition location poles).2
  if notAtPole.isEmpty then CreateDSAction.newPackage
  else CreateDSAction.attachLayer
    (findDSSourceForSparseSource defaultLocation poles dsSources location)

/-- The claim's classification condition, following the spec's words: a
location is sparse when "no single axis value in it equals that axis's
pole". -/
def specNoSingleAxisValueAtPole (poles : List (String × List Int))
    (location : Location) : Prop :=
  ∀ e ∈ location, e.2 ∉ (alookup poles e.1).getD []

/-- Counterexample to C2: for the location `A = 400, B = 77` with poles
`A ∈ (100, 400, 900)` and `B ∈ (50, 100, 200)`, the code classifies the
location as sparse (axis B is off-pole) and attaches a layer to the source
at the pole-projection `A = 400, B = 100`, although axis A's value equals a
pole, so the claim's "no single axis value equals that axis's pole"
condition is false. -/
theorem classifyNewLocation_counterexample :
    createDSSourceForGlyphAction [("A", 400), ("B", 100)]
        [("A", [100, 400, 900]), ("B", [50, 100, 200])]
        [DSSourceM.mk "default" "Regular" [("A", 400), ("B", 100)] true]
        [("A", 400), ("B", 77)] =
      CreateDSAction.attachLayer
        (some (DSSourceM.mk "default" "Regular" [("A", 400), ("B", 100)] true)) ∧
    ¬ specNoSingleAxisValueAtPole
        [("A", [100, 400, 900]), ("B", [50, 100, 200])]
        [("A", 400), ("B", 77)] := by
  constructor
  · decide
  · intro h
    exact h ("A", 400) (by decide) (by decide)

/-- C2 (amended): a new LogicalSource's location gets a brand-new backing
package exactly when every axis value in it is at that axis's pole; as soon
as at least one axis value is off-pole the location is sparse, and a layer
is attached to the source found at the location's pole-projection, falling
back to the default source. -/
theorem createDSSource_classification (defaultLocation : Location)
    (poles : List (String × List Int)) (dsSources : List DSSourceM)
    (location : Location) :
    (createDSSourceForGlyphAction defaultLocation poles dsSources location =
        CreateDSAction.newPackage ↔
      ∀ e ∈ location, e.2 ∈ (alookup poles e.1).getD []) ∧
    ((∃ e ∈ location, e.2 ∉ (alookup poles e.1).getD []) →
      createDSSourceForGlyphAction defaultLocation poles dsSources location =
        CreateDSAction.attachLayer
          (findDSSourceForSparseSource defaultLocation poles dsSources
            location)) ∧
    (dsSources.find? (fun s => decide (locationToTuple s.location =
        locationToTuple (dictMerge defaultLocation
          (splitLocationByPolePosition location poles).1))) = none →
      findDSSourceForSparseSource defaultLocation poles dsSources location =
        dsSources.find? (fun s => s.isDefault)) := by
  have hempty : ((splitLocationByPolePosition location poles).2).isEmpty =
        true ↔ ∀ e ∈ location, e.2 ∈ (alookup poles e.1).getD [] := by
    unfold splitLocationByPolePosition
    rw [List.isEmpty_iff, List.filter_eq_nil_iff]
    constructor
    · intro h e he
      have := h e he
      simpa using this
    · intro h e he
      simp [h e he]
  refine ⟨?_, ?_, ?_⟩
  · unfold createDSSourceForGlyphAction
    by_cases hni : ((splitLocationByPolePosition location poles).2).isEmpty = true
    · rw [if_pos hni]
      exact iff_of_true rfl (hempty.mp hni)
    · rw [if_neg hni]
      exact iff_of_false (fun hh => CreateDSAction.noConfusion hh)
        (fun hall => hni (hempty.mpr hall))
  · intro hex
    unfold createDSSourceForGlyphAction
    rw [if_neg (by
      intro hcon
      obtain ⟨e, he, hv⟩ := hex
      have := hempty.mp hcon e he
      exact hv this)]
  · intro hfind
    unfold findDSSourceForSparseSource
    dsimp only
    rw [hfind]

/-- Witness for C2's amended theorem at a concrete input: the off-pole
location from the counterexample is classified sparse and attached to the
pole-projection source. -/
theorem createDSSource_classification_witness :
    createDSSourceForGlyphAction [("A", 400), ("B", 100)]
        [("A", [100, 400, 900]), ("B", [50, 100, 200])]
        [DSSourceM.mk "default" "Regular" [("A", 400), ("B", 100)] true]
        [("A", 400), ("B", 77)] =
      CreateDSAction.attachLayer
        (findDSSourceForSparseSource [("A", 400), ("B", 100)]
          [("A", [100, 400, 900]), ("B", [50, 100, 200])]
          [DSSourceM.mk "default" "Regular" [("A", 400), ("B", 100)] true]
          [("A", 400), ("B", 77)]) :=
  (createDSSource_classification [("A", 400), ("B", 100)]
      [("A", [100, 400, 900]), ("B", [50, 100, 200])]
      [DSSourceM.mk "default" "Regular" [("A", 400), ("B", 100)] true]
      [("A", 400), ("B", 77)]).2.1
    ⟨("B", 77), by decide, by decide⟩

/-! ### Identifier and layer-name generation
(designspace.py `makeDSSourceIdentifier` lines 2260-2280 and
`_createUFOLayer` lines 948-981)

The while loops are modelled with explicit fuel; `none` means the loop was
still running when the fuel ran out, so every `some` result is a value the
Python loop actually returns. -/

/-- Python `f"{n:03}"`: decimal digits zero-padded to width three. -/
def pad3 (n : Nat) : String :=
  if n < 10 then "00" ++ toString n
  else if n < 100 then "0" ++ toString n
  else toString n

/-- The candidate name built in the loop body of `makeDSSourceIdentifier`:
`originalSourceName + f"::fontra{sourceIndex:03}{counterString}"` where the
counter suffix `#k` appears only for a nonzero counter. -/
def dsSourceIdentifierCandidate (originalSourceName : String)
    (sourceIndex counter : Nat) : String :=
  originalSourceName ++ "::fontra" ++ pad3 sourceIndex ++
    (if counter = 0 then "" else "#" ++ toString counter)

/-- The `while not sourceName or sourceName in usedSourceNames` loop of
`makeDSSourceIdentifier`. -/
def makeDSSourceIdentifierGo (usedSourceNames : List String)
    (sourceIndex : Nat) (originalSourceName : String) :
    String → Nat → Nat → Option String
  | sourceName, _, 0 =>
    if sourceName ≠ "" ∧ sourceName ∉ usedSourceNames then some sourceName
    else none
  | sourceName, counter, fuel + 1 =>
    if sourceName ≠ "" ∧ sourceName ∉ usedSourceNames then some sourceName
    else
      makeDSSourceIdentifierGo usedSourceNames sourceIndex originalSourceName
        (dsSourceIdentifierCandidate originalSourceName sourceIndex counter)
        (counter + 1) fuel

/-- Translation of `makeDSSourceIdentifier` (designspace.py lines
2260-2280).  The Python function derives `usedSourceNames` from
`dsDoc.sources` when not passed; the model takes the set directly.  A `None`
original name becomes the empty string. -/
def makeDSSourceIdentifier (usedSourceNames : List String) (sourceIndex : Nat)
    (originalSourceName : Option String) (fuel : Nat) : Option String :=
  makeDSSourceIdentifierGo usedSourceNames sourceIndex
    (originalSourceName.getD "") (originalSourceName.getD "") 0 fuel

/-- The `while glyphName in ... getGlyphSet(ufoPath, ufoLayerName)` loop of
`_createUFOLayer` (lines 957-966); `glyphInLayer layerName` says whether the
glyph already exists in that layer of the target package. -/
def makeUFOLayerNameGo (glyphInLayer : String → Bool)
    (suggestedLayerName : String) : String → Nat → Nat → Option String
  | ufoLayerName, _, 0 =>
    if glyphInLayer ufoLayerName = false then some ufoLayerName else none
  | ufoLayerName, count, fuel + 1 =>
    if glyphInLayer ufoLayerName = false then some ufoLayerName
    else
      makeUFOLayerNameGo glyphInLayer suggestedLayerName
        (suggestedLayerName ++ "#" ++ toString (count + 1)) (count + 1) fuel

/-- The layer-name selection of `_createUFOLayer`: start from the suggested
name and append `#k` with increasing `k` until the glyph is absent. -/
def makeUFOLayerName (glyphInLayer : String → Bool)
    (suggestedLayerName : String) (fuel : Nat) : Option String :=
  makeUFOLayerNameGo glyphInLayer suggestedLayerName suggestedLayerName 0 fuel

theorem makeDSSourceIdentifierGo_spec (used : List String) (idx : Nat)
    (orig : String) :
    ∀ (fuel : Nat) (sourceName : String) (counter : Nat) (s : String),
    makeDSSourceIdentifierGo used idx orig sourceName counter fuel = some s →
    s ≠ "" ∧ s ∉ used ∧
      (s = sourceName ∨ ∃ k, s = dsSourceIdentifierCandidate orig idx k) := by
  intro fuel
  induction fuel with
  | zero =>
    intro sourceName counter s h
    unfold makeDSSourceIdentifierGo at h
    by_cases hc : sourceName ≠ "" ∧ sourceName ∉ used
    · rw [if_pos hc] at h
      obtain rfl := Option.some.inj h
      exact ⟨hc.1, hc.2, Or.inl rfl⟩
    · rw [if_neg hc] at h
      exact Option.noConfusion h
  | succ fuel ih =>
    intro sourceName counter s h
    unfold makeDSSourceIdentifierGo at h
    by_cases hc : sourceName ≠ "" ∧ sourceName ∉ used
    · rw [if_pos hc] at h
      obtain rfl := Option.some.inj h
      exact ⟨hc.1, hc.2, Or.inl rfl⟩
    · rw [if_neg hc] at h
      obtain ⟨h1, h2, h3⟩ := ih _ _ _ h
      refine ⟨h1, h2, Or.inr ?_⟩
      rcases h3 with h4 | ⟨k, hk⟩
      · exact ⟨counter, h4⟩
      · exact ⟨k, hk⟩

theorem makeUFOLayerNameGo_spec (glyphInLayer : String → Bool)
    (suggested : String) :
    ∀ (fuel : Nat) (name : String) (count : Nat) (c : String),
    makeUFOLayerNameGo glyphInLayer suggested name count fuel = some c →
    glyphInLayer c = false ∧
      (c = name ∨ ∃ k, 1 ≤ k ∧ c = suggested ++ "#" ++ toString k) := by
  intro fuel
  induction fuel with
  | zero =>
    intro name count c h
    unfold makeUFOLayerNameGo at h
    by_cases hc : glyphInLayer name = false
    · rw [if_pos hc] at h
      obtain rfl := Option.some.inj h
      exact ⟨hc, Or.inl rfl⟩
    · rw [if_neg hc] at h
      exact Option.noConfusion h
  | succ fuel ih =>
    intro name count c h
    unfold makeUFOLayerNameGo at h
    by_cases hc : glyphInLayer name = false
    · rw [if_pos hc] at h
      obtain rfl := Option.some.inj h
      exact ⟨hc, Or.inl rfl⟩
    · rw [if_neg hc] at h
      obtain ⟨h1, h2⟩ := ih _ _ _ h
      refine ⟨h1, Or.inr ?_⟩
      rcases h2 with h3 | ⟨k, hk1, hk2⟩
      · exact ⟨count + 1, Nat.succ_le_succ (Nat.zero_le _), h3⟩
      · exact ⟨k, hk1, hk2⟩

/-- The identifier pattern stated by the claim:
`<originalName>::source<NNN>[#k]` begins with the original name followed by
the literal `::source`. -/
def specSourcePattern (originalName s : String) : Prop :=
  ∃ suffix : String, s = originalName ++ "::source" ++ suffix

/-- Counterexample to C8: the first identifier generated for a new
LogicalSource in an empty document is `"::fontra000"`, which does not follow
the claimed `<originalName>::source<NNN>[#k]` pattern (the literal is
`::fontra`, not `::source`). -/
theorem makeDSSourceIdentifier_pattern_counterexample :
    makeDSSourceIdentifier [] 0 none 2 = some "::fontra000" ∧
    ¬ specSourcePattern "" "::fontra000" := by
  constructor
  · rfl
  · rintro ⟨suffix, h⟩
    have hd : ("::fontra000" : String).data =
        ("::source" : String).data ++ suffix.data := by
      have h2 := congrArg String.data h
      rw [String.data_append, String.data_append] at h2
      exact h2
    have h8 : (("::source" : String).data ++ suffix.data).take 8 =
        ("::source" : String).data := by
      rw [show (8 : Nat) = ("::source" : String).data.length from rfl]
      exact List.take_left _ _
    rw [← hd] at h8
    exact absurd h8 (by decide)

/-- C8 (amended): generated LogicalSource identifiers follow the pattern
`<originalName>::fontra<NNN>[#k]` (with an empty original name for newly
generated sources) and are never empty nor already in use; a BackingLayer
name collision is resolved by appending `#k` with increasing `k ≥ 1` until a
layer name free of the glyph is found. -/
theorem naming_spec (used : List String) (idx fuelA : Nat)
    (glyphInLayer : String → Bool) (suggested : String) (fuelB : Nat) :
    (∀ s, makeDSSourceIdentifier used idx none fuelA = some s →
      s ≠ "" ∧ s ∉ used ∧
        ∃ k, s = dsSourceIdentifierCandidate "" idx k) ∧
    (∀ c, makeUFOLayerName glyphInLayer suggested fuelB = some c →
      glyphInLayer c = false ∧
        (c = suggested ∨ ∃ k, 1 ≤ k ∧ c = suggested ++ "#" ++ toString k)) := by
  constructor
  · intro s h
    obtain ⟨h1, h2, h3⟩ := makeDSSourceIdentifierGo_spec used idx "" fuelA "" 0 s h
    refine ⟨h1, h2, ?_⟩
    rcases h3 with h4 | h5
    · exact absurd h4 h1
    · exact h5
  · intro c h
    exact makeUFOLayerNameGo_spec glyphInLayer suggested fuelB suggested 0 c h

/-- Witness for C8's amended theorem at concrete inputs: the first generated
identifier in an empty document, and a layer-name collision resolved to
`bg#1`. -/
theorem naming_spec_witness :
    ("::fontra000" ≠ "" ∧ "::fontra000" ∉ ([] : List String) ∧
      ∃ k, "::fontra000" = dsSourceIdentifierCandidate "" 0 k) ∧
    ((fun n => decide (n = "bg")) "bg#1" = false ∧
      ("bg#1" = "bg" ∨ ∃ k, 1 ≤ k ∧ "bg#1" = "bg" ++ "#" ++ toString k)) :=
  ⟨(naming_spec [] 0 2 (fun n => decide (n = "bg")) "bg" 3).1
      "::fontra000" rfl,
   (naming_spec [] 0 2 (fun n => decide (n = "bg")) "bg" 3).2 "bg#1" rfl⟩

/-! ### Background-image identifier derivation
(designspace.py `_getImageIdentifier`, lines 1334-1348)

`uuid.uuid5(NAMESPACE_URL, name)` is a pure function of its name string (an
RFC 4122 name-based SHA-1 UUID); it is modelled as an arbitrary fixed
function `uuid5 : String → String`.  `os.path.basename` is modelled for
POSIX paths. -/

/-- POSIX `os.path.basename`: the part after the last slash. -/
def posixBasename (p : String) : String :=
  String.mk (p.data.foldl (fun acc c => if c = '/' then [] else acc ++ [c]) [])

/-- The name string hashed by `_getImageIdentifier`:
`f"https://fontra.xyz/image-ids/{ufoFileName}/{imageFileName}"`. -/
def imageURLString (ufoFileName imageFileName : String) : String :=
  "https://fontra.xyz/image-ids/" ++ ufoFileName ++ "/" ++ imageFileName

/-- Translation of `_getImageIdentifier` (designspace.py lines 1334-1348):
return the memoized identifier for `(ufoPath, imageFileName)` when present,
else derive it from the UFO file name and the image file name and memoize
it.  Returns the identifier and the mapping after the call. -/
def getImageIdentifier (uuid5 : String → String)
    (imageMapping : List ((String × String) × String))
    (ufoPath imageFileName : String) :
    String × List ((String × String) × String) :=
  match alookup imageMapping (ufoPath, imageFileName) with
  | some imageIdentifier => (imageIdentifier, imageMapping)
  | none =>
    let ufoFileName := posixBasename ufoPath
    let imageIdentifier := uuid5 (imageURLString ufoFileName imageFileName)
    (imageIdentifier,
      imageMapping ++ [((ufoPath, imageFileName), imageIdentifier)])

/-- A memo state in which every cached identifier equals the derived one;
this holds for every state `_getImageIdentifier` builds up on its own (in
particular the fresh state of a new run), but NOT for states seeded by
`putGlyph`'s image-mapping insertion below. -/
def derivationConsistent (uuid5 : String → String)
    (m : List ((String × String) × String)) : Prop :=
  ∀ k v, alookup m k = some v →
    v = uuid5 (imageURLString (posixBasename k.1) k.2)

/-- Reverse lookup of the insert-only `DoubleDict` `_imageMapping`: the
reverse dict maps an identifier to the key of the most recent insertion with
that identifier (each `__setitem__` overwrites `reverse[value]`). -/
def reverseGet (m : List ((String × String) × String))
    (identifier : String) : Option (String × String) :=
  ((m.filter fun e => decide (e.2 = identifier)).getLast?).map Prod.fst

/-- Translation of the background-image handling inside `putGlyph`
(designspace.py lines 712-726), restricted to its effect on `_imageMapping`:
when a written layer glyph carries a background image whose identifier is
not yet in the reverse mapping, the CLIENT-SUPPLIED identifier is stored
under `(ufoLayer.path, f"(imageIdentifier).png")` — it is not derived via
uuid5.  Returns the image file name used and the mapping after the call. -/
def putGlyphImageMapping (imageMapping : List ((String × String) × String))
    (backgroundImageIdentifier : Option String) (ufoLayerPath : String) :
    Option String × List ((String × String) × String) :=
  match backgroundImageIdentifier with
  | none => (none, imageMapping)
  | some imageIdentifier =>
    match reverseGet imageMapping imageIdentifier with
    | some imageInfo => (some imageInfo.2, imageMapping)
    | none =>
      let imageFileName := imageIdentifier ++ ".png"
      (some imageFileName,
        imageMapping ++ [((ufoLayerPath, imageFileName), imageIdentifier)])

/-- Counterexample to C9: the identifier-derivation function is NOT
deterministic across arbitrary reachable states.  In run 1, `putGlyph`
writes a glyph with a client-supplied background-image identifier `"abc"`
into package `a/x.ufo`, seeding `_imageMapping`; a call to
`_getImageIdentifier` in that same run returns the memoized `"abc"`, while
the identical call (same package file name `x.ufo`, same image file name
`abc.png`) in a fresh run derives the uuid5 name-hash instead — here
witnessed with `uuid5` instantiated as the identity function, for which the
derived identifier is the URL string, which differs from `"abc"` (as does
any RFC 4122 UUID string). -/
theorem getImageIdentifier_not_deterministic :
    putGlyphImageMapping [] (some "abc") "a/x.ufo" =
      (some "abc.png", [(("a/x.ufo", "abc.png"), "abc")]) ∧
    (getImageIdentifier (fun s => s)
        (putGlyphImageMapping [] (some "abc") "a/x.ufo").2
        "a/x.ufo" "abc.png").1 = "abc" ∧
    (getImageIdentifier (fun s => s) [] "a/x.ufo" "abc.png").1 =
      "https://fontra.xyz/image-ids/x.ufo/abc.png" ∧
    (getImageIdentifier (fun s => s)
        (putGlyphImageMapping [] (some "abc") "a/x.ufo").2
        "a/x.ufo" "abc.png").1 ≠
      (getImageIdentifier (fun s => s) [] "a/x.ufo" "abc.png").1 := by
  refine ⟨rfl, rfl, rfl, ?_⟩
  decide

/-- Supporting fact for the amendment: `_getImageIdentifier` itself keeps a
memo state derivation-consistent, so every state reachable through the
derivation function alone (any fresh run without `putGlyph` image
insertions) satisfies the amended theorem's hypothesis. -/
theorem getImageIdentifier_preserves_consistent (uuid5 : String → String)
    (m : List ((String × String) × String)) (p f : String)
    (h : derivationConsistent uuid5 m) :
    derivationConsistent uuid5 (getImageIdentifier uuid5 m p f).2 := by
  unfold getImageIdentifier
  cases hl : alookup m (p, f) with
  | some v => exact h
  | none =>
    dsimp only
    intro k v hk
    rw [alookup_append] at hk
    cases hm : alookup m k with
    | some w =>
      rw [hm] at hk
      dsimp only at hk
      obtain rfl : w = v := Option.some.inj hk
      exact h k _ hm
    | none =>
      rw [hm] at hk
      dsimp only at hk
      by_cases hkey : ((p, f) : String × String) = k
      · subst hkey
        simp only [alookup, if_pos rfl] at hk
        obtain rfl := Option.some.inj hk
        rfl
      · rw [alookup_cons_ne _ _ _ _ hkey] at hk
        exact Option.noConfusion hk

/-- C9 (amended): background-image identifier derivation is deterministic on
derivation-consistent memo states: two calls (e.g. the first load in any
fresh run, or any run whose mapping was populated by the derivation function
alone, without `putGlyph` image insertions) with the same package file name
and the same image file name return the same identifier. -/
theorem getImageIdentifier_deterministic (uuid5 : String → String)
    (m₁ m₂ : List ((String × String) × String))
    (p₁ p₂ f : String)
    (h₁ : derivationConsistent uuid5 m₁)
    (h₂ : derivationConsistent uuid5 m₂)
    (hbase : posixBasename p₁ = posixBasename p₂) :
    (getImageIdentifier uuid5 m₁ p₁ f).1 =
      (getImageIdentifier uuid5 m₂ p₂ f).1 := by
  have hside : ∀ (m : List ((String × String) × String)) (p : String),
      derivationConsistent uuid5 m →
      (getImageIdentifier uuid5 m p f).1 =
        uuid5 (imageURLString (posixBasename p) f) := by
    intro m p hm
    unfold getImageIdentifier
    cases hl : alookup m (p, f) with
    | some v => exact hm (p, f) v hl
    | none => rfl
  rw [hside m₁ p₁ h₁, hside m₂ p₂ h₂, hbase]

/-- Witness for C9 at concrete inputs: two different paths with the same
file name, fresh memo states, `uuid5` instantiated with the identity. -/
theorem getImageIdentifier_deterministic_witness :
    (getImageIdentifier (fun s => s) [] "a/x.ufo" "img.png").1 =
      (getImageIdentifier (fun s => s) [] "b/x.ufo" "img.png").1 :=
  getImageIdentifier_deterministic (fun s => s) [] [] "a/x.ufo" "b/x.ufo"
    "img.png"
    (fun k v h => absurd h (by simp [alookup]))
    (fun k v h => absurd h (by simp [alookup]))
    rfl

end Forkra
